import Mathlib

/-!
Shallow embedding of `src/parser.py` (borderless-parser).

The embedded code consists of:
  * the document segmenter `parse_story` (src/parser.py lines 135-215), which walks a
    fetched page's markup tree and partitions it into titled sections plus a main image;
  * the per-item enrichment step `process_story` (lines 233-240);
  * the pagination / enrichment driver `fetch_full_stories` (lines 217-293), sequential
    mode (`parallel=False`, lines 267-277).

Modelling conventions:
  * Markup is a tree of `Node` values (BeautifulSoup tags and text nodes); a fetched
    page is the forest of its top-level nodes.  `BeautifulSoup.find` is `findTag`
    (first match in pre-order document order), `Tag.get_text(strip=True)` is
    `getTextStrip`.
  * Network effects are oracles: the per-slug page fetch of `parse_story` (lines
    145-149) is a function `slug -> Except FetchError (List Node)`; an `.error`
    result stands for `requests.get`/`raise_for_status` raising.  The successive
    results of the `fetch_stories` calls made by the driving loop (lines 244-247) are
    a trace `pages : List (Except FetchError ApiResponse)`; entry i is the outcome of
    the i-th listing request (an `.error` entry stands for `fetch_stories` raising on
    a non-success status or a malformed envelope, lines 129-133).  The trace is
    assumed long enough to cover every request the loop makes; if it runs out the
    model returns the records accumulated so far.
  * Python truthiness is made explicit where the source relies on it
    (`if not main_image`, `if img and img.get('src')`): a string is truthy iff it is
    nonempty; `current_section` and `cursor` are dicts with a fixed nonzero number of
    keys whenever they are not None, so their truthiness coincides with `Option.isSome`.
  * Machine integers do not occur; `count` is an `Int` (Python int), list slicing
    `all_stories[:count]` is `pySliceTo` including Python's negative-index behaviour.
-/

/-- Markup node: a BeautifulSoup `Tag` (name, attributes, children) or a
`NavigableString` text node. -/
inductive Node where
  | text (s : String) : Node
  | tag (name : String) (attrs : List (String × String)) (children : List Node) : Node

/-- Name of a node; `none` for text nodes (BeautifulSoup gives `NavigableString.name = None`). -/
def Node.name : Node → Option String
  | .text _ => none
  | .tag n _ _ => n

/-- Attribute list of a node (empty for text nodes). -/
def Node.attrs : Node → List (String × String)
  | .text _ => []
  | .tag _ a _ => a

/-- Children of a node (empty for text nodes). -/
def Node.children : Node → List Node
  | .text _ => []
  | .tag _ _ c => c

/-- Python `str.strip()`: drop leading and trailing whitespace characters. -/
def pyStrip (s : String) : String :=
  String.mk (((s.data.dropWhile Char.isWhitespace).reverse.dropWhile Char.isWhitespace).reverse)

mutual
/-- All descendant text-node strings of a node, in document order
(the strings joined by `Tag.get_text`). -/
def getTexts : Node → List String
  | .text s => [s]
  | .tag _ _ ch => getTextsList ch
/-- Descendant text-node strings of a forest, in document order. -/
def getTextsList : List Node → List String
  | [] => []
  | n :: rest => getTexts n ++ getTextsList rest
end

/-- Model of `Tag.get_text(strip=True)`: each descendant string stripped, then
concatenated (empty separator). -/
def getTextStrip (n : Node) : String :=
  String.join ((getTexts n).map pyStrip)

/-- Model of BeautifulSoup `find(name)` over a forest: the first tag with the given
name in pre-order (document) order, descending into children before siblings. -/
def findTag (name : String) : List Node → Option Node
  | [] => none
  | .text _ :: rest => findTag name rest
  | .tag t a ch :: rest =>
    if t = name then some (.tag t a ch)
    else
      match findTag name ch with
      | some r => some r
      | none => findTag name rest

/-- Country (src/parser.py lines 12-15). -/
structure Country where
  code : String
  displayName : String
  emoji : String
deriving Repr, DecidableEq

/-- City (lines 17-20). -/
structure City where
  id : String
  displayName : String
  state : Option String
deriving Repr, DecidableEq

/-- Organization (lines 22-29). -/
structure Organization where
  id : String
  orgname : String
  imageUrl : String
  displayName : String
  orgType : String
  city : City
  country : Country
deriving Repr, DecidableEq

/-- Author (lines 31-36). -/
structure Author where
  username : String
  firstName : String
  emoji : Option String
  imageUrl : String
  fromCountry : Country
deriving Repr, DecidableEq

/-- Opaque pagination cursor (lines 38-40). -/
structure Cursor where
  score : Int
  createdAt : String
deriving Repr, DecidableEq

/-- One record summary from the listing endpoint (lines 42-51).
`localeContents : List[Any]` is modelled as an opaque list of strings. -/
structure StoryItem where
  slug : String
  createdAt : String
  author : Author
  org : Organization
  squareImageUrl : String
  previewImageUrl : String
  type : String
  title : String
  localeContents : List String
deriving Repr, DecidableEq

/-- Decoded listing response envelope (lines 53-55); `nextCursor` is `none` when the
response omits it (`stories_response.get('nextCursor')`, line 284). -/
structure ApiResponse where
  items : List StoryItem
  nextCursor : Option Cursor
deriving Repr, DecidableEq

/-- One titled section produced by the segmenter (lines 62-65). -/
structure StorySection where
  title : String
  content : String
  images : List String
deriving Repr, DecidableEq

/-- Value actually returned by `parse_story` (lines 208-215): only the section list
and the optional main image.  The source's `ParsedStory` TypedDict declares further
fields (title, author, org, createdAt), but every line constructing them is
commented out in the source, so the constructed dict carries exactly these two keys. -/
structure ParsedStory where
  sections : List StorySection
  mainImage : Option String
deriving Repr, DecidableEq

/-- Failure of a network fetch or of decoding a response
(`requests` raising, `raise_for_status` on a non-2xx code, or the envelope access
`data['0']['result']['data']['json']` failing). -/
inductive FetchError where
  | httpStatus (code : Nat) : FetchError
  | badEnvelope : FetchError
  | network (msg : String) : FetchError
deriving Repr, DecidableEq

/-- Error raised by `parse_story`: either its page fetch failed, or the markup has no
article container (the `ValueError` of line 156). -/
inductive StoryError where
  | fetch (e : FetchError) : StoryError
  | articleNotFound (slug : String) : StoryError
deriving Repr, DecidableEq

/-- Python truthiness of a string: nonempty. -/
def truthyStr (s : String) : Bool := s ≠ ""

/-- Python truthiness of an optional string (`if not main_image`, line 192):
`None` and the empty string are falsy. -/
def truthyOptStr : Option String → Bool
  | none => false
  | some s => truthyStr s

/-- Mutable state of the segmentation loop of `parse_story` (lines 158-161):
the finalized sections, the in-progress section, and the recorded main image. -/
structure SegState where
  sections : List StorySection
  currentSection : Option StorySection
  mainImage : Option String
deriving Repr, DecidableEq

/-- Body of the inner loop of `parse_story` (lines 171-195): processing of one child
`content` of a wrapper div.  A heading finalizes the in-progress section and starts a
new one; a paragraph appends its stripped text plus a newline to the in-progress
section; a figure records its first embedded image's nonempty `src` (as main image if
none is recorded yet, and into the in-progress section's image list). -/
def segStep (st : SegState) (content : Node) : SegState :=
  if content.name = some "h1" then
    { st with
      sections := st.sections ++ st.currentSection.toList,
      currentSection := some { title := getTextStrip content, content := "", images := [] } }
  else if content.name = some "p" then
    match st.currentSection with
    | some cs =>
      { st with currentSection := some { cs with content := cs.content ++ getTextStrip content ++ "\n" } }
    | none => st
  else if content.name = some "figure" then
    match findTag "img" content.children with
    | some img =>
      match img.attrs.lookup "src" with
      | some src =>
        if truthyStr src then
          let st1 := if truthyOptStr st.mainImage then st else { st with mainImage := some src }
          match st1.currentSection with
          | some cs => { st1 with currentSection := some { cs with images := cs.images ++ [src] } }
          | none => st1
        else st
      | none => st
    | none => st
  else st

/-- Body of the outer loop of `parse_story` (lines 164-171): a direct child of the
article that is a link is skipped (advertisement), a div is descended into one level
(its children fed to `segStep`), anything else is ignored. -/
def segTop (st : SegState) (element : Node) : SegState :=
  if element.name = some "a" then st
  else if element.name = some "div" then element.children.foldl segStep st
  else st

/-- Initial segmentation state (lines 158-161). -/
def initSegState : SegState := { sections := [], currentSection := none, mainImage := none }

/-- Pure core of `parse_story` (lines 158-215): segment the children of the article
container, finalizing the last in-progress section at the end (lines 197-199). -/
def segmentArticle (children : List Node) : ParsedStory :=
  let st := children.foldl segTop initSegState
  { sections := st.sections ++ st.currentSection.toList, mainImage := st.mainImage }

/-- Model of `parse_story` (lines 135-215): fetch the page for the slug via the
oracle (a raised fetch error propagates), locate the article container (its absence
is the `ValueError` of line 156), and segment the container's children. -/
def parse_story (pageOracle : String → Except FetchError (List Node)) (slug : String) :
    Except StoryError ParsedStory :=
  match pageOracle slug with
  | Except.error e => Except.error (StoryError.fetch e)
  | Except.ok soup =>
    match findTag "article" soup with
    | none => Except.error (StoryError.articleNotFound slug)
    | some article => Except.ok (segmentArticle article.children)

/-- One fully enriched record: `{**story, 'sections': ..., 'mainImage': ...}`
(lines 236-240).  All metadata keys come from the summary `story`; the parsed
content contributes exactly the section list and the main image. -/
structure MergedStory where
  story : StoryItem
  sections : List StorySection
  mainImage : Option String
deriving Repr, DecidableEq

/-- Model of `process_story` (lines 233-240): parse the story's page and merge the
parsed content into the summary's metadata. -/
def process_story (pageOracle : String → Except FetchError (List Node))
    (story : StoryItem) : Except StoryError MergedStory :=
  match parse_story pageOracle story.slug with
  | Except.error e => Except.error e
  | Except.ok parsed_content =>
    Except.ok { story := story, sections := parsed_content.sections,
                mainImage := parsed_content.mainImage }

/-- Sequential batch processing (lines 267-277, the `parallel=False` branch): items
in listing order; a `process_story` failure is caught, logged and the item skipped. -/
def seqBatch (pageOracle : String → Except FetchError (List Node))
    (items : List StoryItem) : List MergedStory :=
  items.foldl
    (fun batch_stories story =>
      match process_story pageOracle story with
      | Except.ok full_story => batch_stories ++ [full_story]
      | Except.error _ => batch_stories)
    []

/-- Python list slice `l[:n]`, including the negative-index convention. -/
def pySliceTo {α : Type} (l : List α) (n : Int) : List α :=
  if 0 ≤ n then l.take n.toNat else l.take ((l.length : Int) + n).toNat

/-- The `while True` loop of `fetch_full_stories` (lines 242-293) in sequential mode,
over a trace of listing responses.  Each iteration consumes the next trace entry (the
outcome of one `fetch_stories` call): an error entry propagates uncaught; otherwise
the batch is enriched, appended, the budget check `count != -1 and len >= count`
truncates and stops, and an absent next cursor stops the loop. -/
def fetchLoop (pageOracle : String → Except FetchError (List Node)) (count : Int)
    (pages : List (Except FetchError ApiResponse)) (all_stories : List MergedStory) :
    Except FetchError (List MergedStory) :=
  match pages with
  | [] => Except.ok all_stories
  | resp :: rest =>
    match resp with
    | Except.error e => Except.error e
    | Except.ok stories_response =>
      let all' := all_stories ++ seqBatch pageOracle stories_response.items
      if count ≠ -1 ∧ (count ≤ (all'.length : Int)) then Except.ok (pySliceTo all' count)
      else
        match stories_response.nextCursor with
        | none => Except.ok all'
        | some _ => fetchLoop pageOracle count rest all'

/-- Model of `fetch_full_stories` (lines 217-293) in sequential mode
(`parallel=False`): run the pagination loop with an empty accumulator. -/
def fetch_full_stories (pageOracle : String → Except FetchError (List Node))
    (pages : List (Except FetchError ApiResponse)) (count : Int) :
    Except FetchError (List MergedStory) :=
  fetchLoop pageOracle count pages []

/-- Heading titles contributed by one wrapper-child node: the stripped text of an h1,
nothing otherwise.  Reference function for stating section/heading correspondence. -/
def nodeHeadings (content : Node) : List String :=
  if content.name = some "h1" then [getTextStrip content] else []

/-- Heading titles contributed by one direct child of the article, in document order. -/
def topHeadings (element : Node) : List String :=
  if element.name = some "a" then []
  else if element.name = some "div" then (element.children.map nodeHeadings).flatten
  else []

/-- All heading titles the segmenter's traversal visits, in document order. -/
def articleHeadings (children : List Node) : List String :=
  (children.map topHeadings).flatten

/-- Image URL recorded from one wrapper-child node: the first embedded img of a
figure when it carries a nonempty src, nothing otherwise. -/
def nodeFigureImages (content : Node) : List String :=
  if content.name = some "figure" then
    match findTag "img" content.children with
    | some img =>
      match img.attrs.lookup "src" with
      | some src => if truthyStr src then [src] else []
      | none => []
    | none => []
  else []

/-- Image URLs contributed by one direct child of the article, in document order. -/
def topFigureImages (element : Node) : List String :=
  if element.name = some "a" then []
  else if element.name = some "div" then (element.children.map nodeFigureImages).flatten
  else []

/-- All figure image URLs the segmenter's traversal visits, in document order. -/
def articleFigureImages (children : List Node) : List String :=
  (children.map topFigureImages).flatten

/-- Reference form of a section that keeps the body as the list of its paragraphs'
stripped texts instead of a single accumulated string. -/
structure SectionSpec where
  title : String
  paragraphs : List String
  images : List String
deriving Repr, DecidableEq

/-- Reference segmentation state mirroring `SegState`. -/
structure SpecState where
  sections : List SectionSpec
  currentSection : Option SectionSpec
  mainImage : Option String
deriving Repr, DecidableEq

/-- Reference inner step mirroring `segStep`, with the paragraph branch recording the
stripped text as a list element instead of concatenating it. -/
def specStep (st : SpecState) (content : Node) : SpecState :=
  if content.name = some "h1" then
    { st with
      sections := st.sections ++ st.currentSection.toList,
      currentSection := some { title := getTextStrip content, paragraphs := [], images := [] } }
  else if content.name = some "p" then
    match st.currentSection with
    | some cs =>
      { st with currentSection := some { cs with paragraphs := cs.paragraphs ++ [getTextStrip content] } }
    | none => st
  else if content.name = some "figure" then
    match findTag "img" content.children with
    | some img =>
      match img.attrs.lookup "src" with
      | some src =>
        if truthyStr src then
          let st1 := if truthyOptStr st.mainImage then st else { st with mainImage := some src }
          match st1.currentSection with
          | some cs => { st1 with currentSection := some { cs with images := cs.images ++ [src] } }
          | none => st1
        else st
      | none => st
    | none => st
  else st

/-- Reference outer step mirroring `segTop`. -/
def specTop (st : SpecState) (element : Node) : SpecState :=
  if element.name = some "a" then st
  else if element.name = some "div" then element.children.foldl specStep st
  else st

/-- Reference segmentation of an article's children, with the final in-progress
section finalized. -/
def specSections (children : List Node) : List SectionSpec :=
  let st := children.foldl specTop ⟨[], none, none⟩
  st.sections ++ st.currentSection.toList

/-- Collapse a reference section to a `StorySection`: the body is the concatenation
of the paragraphs' stripped texts, each followed by one newline. -/
def sectionOfSpec (s : SectionSpec) : StorySection :=
  { title := s.title,
    content := String.join (s.paragraphs.map (fun t => t ++ "\n")),
    images := s.images }

/-- Example markup: the worked example's article content — one wrapper div whose
children are a heading, a paragraph, a figure with an image, a second heading and a
second paragraph (heading and first paragraph carry surrounding whitespace to
exercise per-node stripping). -/
def exArticleChildren : List Node :=
  [Node.tag "div" []
    [Node.tag "h1" [] [Node.text "  Intro "],
     Node.tag "p" [] [Node.text " Hello "],
     Node.tag "figure" [] [Node.tag "img" [("src", "a.png")] []],
     Node.tag "h1" [] [Node.text "Next"],
     Node.tag "p" [] [Node.text "World"]]]

/-- Example fetched page: the article container holding the example content. -/
def exSoup : List Node := [Node.tag "article" [] exArticleChildren]

/-- Example page oracle: the slug "bad-slug" fails with an HTTP 404
(`raise_for_status` raising inside `parse_story`); every other slug fetches the
example page. -/
def exOracle (slug : String) : Except FetchError (List Node) :=
  if slug = "bad-slug" then Except.error (FetchError.httpStatus 404) else Except.ok exSoup

/-- Example country descriptor. -/
def exCountry : Country := { code := "US", displayName := "United States", emoji := "us" }

/-- Example city descriptor. -/
def exCity : City := { id := "nyc", displayName := "New York", state := none }

/-- Example organization descriptor. -/
def exOrg : Organization :=
  { id := "o1", orgname := "org", imageUrl := "o.png", displayName := "Org",
    orgType := "University", city := exCity, country := exCountry }

/-- Example author descriptor. -/
def exAuthor : Author :=
  { username := "ann", firstName := "Ann", emoji := none, imageUrl := "a.jpg",
    fromCountry := exCountry }

/-- Example record summary with a given slug. -/
def mkItem (slug : String) : StoryItem :=
  { slug := slug, createdAt := "2024-01-01", author := exAuthor, org := exOrg,
    squareImageUrl := "sq.png", previewImageUrl := "pv.png", type := "Bachelor",
    title := "A story", localeContents := [] }

/-- C3: for markup whose article container holds one wrapper div whose children are,
in order, heading "Intro", paragraph "Hello", a figure containing an img with src
"a.png", heading "Next", paragraph "World", `parse_story` produces exactly the two
sections [⟨"Intro", "Hello\n", ["a.png"]⟩, ⟨"Next", "World\n", []⟩] in that order and
main image "a.png"; each title is the heading's flattened text with surrounding
whitespace trimmed, and each paragraph contributes its trimmed text plus a trailing
newline. -/
theorem worked_example_segmentation :
    parse_story exOracle "story-1" =
      Except.ok ⟨[⟨"Intro", "Hello\n", ["a.png"]⟩, ⟨"Next", "World\n", []⟩],
        some "a.png"⟩ := by
  simp [parse_story, exOracle, exSoup, exArticleChildren, findTag, segmentArticle,
    initSegState, segTop, segStep, getTextStrip, getTexts, getTextsList, pyStrip,
    truthyStr, truthyOptStr, Node.name, Node.attrs, Node.children]
  decide

/-- A decidable predicate and its negation together count every element once. -/
theorem countP_add_countP_not {α : Type} (p : α → Bool) (l : List α) :
    l.countP p + l.countP (fun a => !p a) = l.length := by
  induction l with
  | nil => rfl
  | cons a r ih =>
    rw [List.countP_cons, List.countP_cons]
    cases h : p a <;> simp [h] <;> omega

/-- Success test on a success value. -/
theorem except_isOk_ok {ε α : Type} (a : α) : (Except.ok a : Except ε α).isOk = true := rfl

/-- Success test on an error value. -/
theorem except_isOk_error {ε α : Type} (e : ε) :
    (Except.error e : Except ε α).isOk = false := rfl

/-- Option view of a success value. -/
theorem except_toOption_ok {ε α : Type} (a : α) :
    (Except.ok a : Except ε α).toOption = some a := rfl

/-- Option view of an error value. -/
theorem except_toOption_error {ε α : Type} (e : ε) :
    (Except.error e : Except ε α).toOption = none := rfl

/-- Sequential batch processing appends each successful record to the accumulator,
so it equals the accumulator followed by the in-order filterMap of the items. -/
theorem seqBatch_foldl_eq (pageOracle : String → Except FetchError (List Node))
    (items : List StoryItem) (acc : List MergedStory) :
    items.foldl
        (fun batch_stories story =>
          match process_story pageOracle story with
          | Except.ok full_story => batch_stories ++ [full_story]
          | Except.error _ => batch_stories)
        acc
      = acc ++ items.filterMap (fun s => (process_story pageOracle s).toOption) := by
  induction items generalizing acc with
  | nil => simp
  | cons s rest ih =>
    cases h : process_story pageOracle s <;>
      simp [List.foldl_cons, h, ih, Except.toOption]

/-- Sequential batch processing is the in-order filterMap of the batch items. -/
theorem seqBatch_eq_filterMap (pageOracle : String → Except FetchError (List Node))
    (items : List StoryItem) :
    seqBatch pageOracle items
      = items.filterMap (fun s => (process_story pageOracle s).toOption) := by
  simpa [seqBatch] using seqBatch_foldl_eq pageOracle items []

/-- Length of a sequential batch: the number of items whose enrichment succeeds. -/
theorem seqBatch_length (pageOracle : String → Except FetchError (List Node))
    (items : List StoryItem) :
    (seqBatch pageOracle items).length
      = items.countP (fun s => (process_story pageOracle s).isOk) := by
  rw [seqBatch_eq_filterMap]
  induction items with
  | nil => rfl
  | cons s rest ih =>
    rw [List.filterMap_cons, List.countP_cons]
    cases h : process_story pageOracle s <;>
      simp [h, except_isOk_ok, except_isOk_error, except_toOption_ok,
        except_toOption_error, ih]

/-- Successful enrichment keeps the summary verbatim in the merged record. -/
theorem process_story_story_eq (pageOracle : String → Except FetchError (List Node))
    (story : StoryItem) (m : MergedStory)
    (h : process_story pageOracle story = Except.ok m) : m.story = story := by
  cases hp : parse_story pageOracle story.slug with
  | error e => simp [process_story, hp] at h
  | ok pc =>
    simp [process_story, hp] at h
    rw [← h]

/-- C7: the pagination loop terminates for every finite trace of listing responses;
as soon as a response carries no next cursor the loop stops and returns the
accumulated records — the result ignores every later trace entry (no further listing
request is consumed) and is a successful value, whatever the accumulated count and
whether or not a budget was given. -/
theorem pagination_terminates_without_cursor
    (pageOracle : String → Except FetchError (List Node)) (items : List StoryItem)
    (count : Int) (rest : List (Except FetchError ApiResponse)) :
    fetch_full_stories pageOracle (Except.ok ⟨items, none⟩ :: rest) count
        = fetch_full_stories pageOracle [Except.ok ⟨items, none⟩] count
      ∧ ∃ l, fetch_full_stories pageOracle (Except.ok ⟨items, none⟩ :: rest) count
          = Except.ok l := by
  refine ⟨rfl, ?_⟩
  simp only [fetch_full_stories, fetchLoop]
  split
  · exact ⟨_, rfl⟩
  · exact ⟨_, rfl⟩

/-- C1: per-item failures are caught at the item boundary while listing failures
propagate: a batch with exactly one failing item yields exactly M-1 merged records
and `fetch_full_stories` still returns successfully, whereas a trace whose first
listing response is a fetch error makes `fetch_full_stories` return that very error
uncaught. -/
theorem fetch_error_asymmetry
    (pageOracle : String → Except FetchError (List Node)) (items : List StoryItem)
    (e : FetchError) (rest : List (Except FetchError ApiResponse)) (count : Int)
    (hone : items.countP (fun s => !(process_story pageOracle s).isOk) = 1) :
    (seqBatch pageOracle items).length = items.length - 1
      ∧ fetch_full_stories pageOracle (Except.ok ⟨items, none⟩ :: rest) (-1)
          = Except.ok (seqBatch pageOracle items)
      ∧ fetch_full_stories pageOracle (Except.error e :: rest) count
          = Except.error e := by
  refine ⟨?_, ?_, rfl⟩
  · have h1 := seqBatch_length pageOracle items
    have h2 : items.countP (fun s => (process_story pageOracle s).isOk)
        + items.countP (fun s => !(process_story pageOracle s).isOk)
        = items.length := countP_add_countP_not _ items
    omega
  · simp [fetch_full_stories, fetchLoop]

/-- Example batch: three record summaries of which exactly the middle one fails its
individual page fetch. -/
def exBatch : List StoryItem := [mkItem "s1", mkItem "bad-slug", mkItem "s3"]

/-- Witness for C1 at the concrete batch `exBatch` (M = 3): the batch yields exactly
2 merged records and the driver returns successfully, while a failing first listing
response propagates out as that very error. -/
theorem fetch_error_asymmetry_witness :
    (seqBatch exOracle exBatch).length = exBatch.length - 1
      ∧ fetch_full_stories exOracle [Except.ok ⟨exBatch, none⟩] (-1)
          = Except.ok (seqBatch exOracle exBatch)
      ∧ fetch_full_stories exOracle [Except.error FetchError.badEnvelope] 5
          = Except.error FetchError.badEnvelope :=
  fetch_error_asymmetry exOracle exBatch FetchError.badEnvelope [] 5 (by
    simp [exBatch, List.countP_cons, mkItem, process_story, parse_story, exOracle,
      exSoup, exArticleChildren, findTag, except_isOk_ok, except_isOk_error])

/-- C8: in sequential mode (`parallel=False`) the merged records of a batch appear in
the same relative order as their summaries in the listing response: the batch output
is exactly the in-order filterMap of the items through `process_story`, and the
survivors' summaries form an order-preserving subsequence of the input items (failed
items omitted, no reordering). -/
theorem sequential_batch_preserves_order
    (pageOracle : String → Except FetchError (List Node)) (items : List StoryItem) :
    seqBatch pageOracle items
        = items.filterMap (fun s => (process_story pageOracle s).toOption)
      ∧ List.Sublist ((seqBatch pageOracle items).map MergedStory.story) items := by
  refine ⟨seqBatch_eq_filterMap pageOracle items, ?_⟩
  rw [seqBatch_eq_filterMap]
  induction items with
  | nil => simp
  | cons s rest ih =>
    rw [List.filterMap_cons]
    cases h : process_story pageOracle s with
    | ok m =>
      have hm := process_story_story_eq pageOracle s m h
      simp only [h, except_toOption_ok, List.map_cons, hm]
      exact List.Sublist.cons₂ s ih
    | error e =>
      simp only [h, except_toOption_error]
      exact List.Sublist.cons s ih

/-- C9: the value returned by `parse_story` carries only the section list and the
optional main image, so a merged record's metadata is exactly the listing summary:
a successful `process_story` keeps the summary verbatim and takes precisely the
sections and main image of the parsed content. -/
theorem merged_metadata_from_summary
    (pageOracle : String → Except FetchError (List Node)) (story : StoryItem)
    (m : MergedStory) (h : process_story pageOracle story = Except.ok m) :
    m.story = story
      ∧ ∃ pc, parse_story pageOracle story.slug = Except.ok pc
          ∧ m.sections = pc.sections ∧ m.mainImage = pc.mainImage := by
  cases hp : parse_story pageOracle story.slug with
  | error e => simp [process_story, hp] at h
  | ok pc =>
    unfold process_story at h
    rw [hp] at h
    simp only [Except.ok.injEq] at h
    exact ⟨by rw [← h], pc, rfl, by rw [← h], by rw [← h]⟩

/-- Example merged record for the slug "s1": the summary plus the example page's
sections and main image. -/
def exMerged : MergedStory :=
  ⟨mkItem "s1", [⟨"Intro", "Hello\n", ["a.png"]⟩, ⟨"Next", "World\n", []⟩],
    some "a.png"⟩

/-- Witness for C9 at the concrete summary `mkItem "s1"` and the example page. -/
theorem merged_metadata_from_summary_witness :
    exMerged.story = mkItem "s1"
      ∧ ∃ pc, parse_story exOracle (mkItem "s1").slug = Except.ok pc
          ∧ exMerged.sections = pc.sections ∧ exMerged.mainImage = pc.mainImage :=
  merged_metadata_from_summary exOracle (mkItem "s1") exMerged (by
    simp [process_story, parse_story, exOracle, mkItem, exSoup, exArticleChildren,
      findTag, segmentArticle, initSegState, segTop, segStep, getTextStrip, getTexts,
      getTextsList, pyStrip, truthyStr, truthyOptStr, Node.name, Node.attrs,
      Node.children, exMerged]
    decide)

/-- C6: when the page fetch itself succeeds, `parse_story` fails — with the NotFound
condition naming the slug — exactly when the markup has no article container; when a
container is present, segmentation raises no structural error and the parsed content
of the container's children is returned. -/
theorem article_container_required
    (pageOracle : String → Except FetchError (List Node)) (slug : String)
    (soup : List Node) (h : pageOracle slug = Except.ok soup) :
    (parse_story pageOracle slug = Except.error (StoryError.articleNotFound slug)
        ↔ findTag "article" soup = none)
      ∧ ∀ a, findTag "article" soup = some a →
          parse_story pageOracle slug = Except.ok (segmentArticle a.children) := by
  constructor
  · constructor
    · intro hp
      cases hf : findTag "article" soup with
      | none => rfl
      | some a => simp [parse_story, h, hf] at hp
    · intro hf
      simp [parse_story, h, hf]
  · intro a hf
    simp [parse_story, h, hf]

/-- Witness for C6 at the example oracle and page: the example markup does contain an
article container, and segmentation returns its parsed content without error. -/
theorem article_container_required_witness :
    (parse_story exOracle "s1" = Except.error (StoryError.articleNotFound "s1")
        ↔ findTag "article" exSoup = none)
      ∧ parse_story exOracle "s1"
          = Except.ok (segmentArticle (Node.tag "article" [] exArticleChildren).children) :=
  ⟨(article_container_required exOracle "s1" exSoup (by simp [exOracle])).1,
   (article_container_required exOracle "s1" exSoup (by simp [exOracle])).2
     (Node.tag "article" [] exArticleChildren) (by simp [findTag, exSoup])⟩

/-- Titles recorded in a segmentation state: the finalized sections' titles followed
by the in-progress section's title, if any. -/
def stateTitles (st : SegState) : List String :=
  (st.sections ++ st.currentSection.toList).map StorySection.title

/-- One inner step appends exactly the heading titles of the processed node. -/
theorem segStep_titles (st : SegState) (content : Node) :
    stateTitles (segStep st content) = stateTitles st ++ nodeHeadings content := by
  by_cases h1 : content.name = some "h1"
  · simp [segStep, stateTitles, nodeHeadings, h1]
  · by_cases h2 : content.name = some "p"
    · cases hcs : st.currentSection <;>
        simp [segStep, stateTitles, nodeHeadings, h1, h2, hcs]
    · by_cases h3 : content.name = some "figure"
      · cases himg : findTag "img" content.children with
        | none => simp [segStep, stateTitles, nodeHeadings, h1, h2, h3, himg]
        | some img =>
          cases hsrc : img.attrs.lookup "src" with
          | none => simp [segStep, stateTitles, nodeHeadings, h1, h2, h3, himg, hsrc]
          | some src =>
            by_cases ht : truthyStr src
            · by_cases hm : truthyOptStr st.mainImage <;> cases hcs : st.currentSection <;>
                simp [segStep, stateTitles, nodeHeadings, h1, h2, h3, himg, hsrc, ht, hm, hcs]
            · simp [segStep, stateTitles, nodeHeadings, h1, h2, h3, himg, hsrc, ht]
      · simp [segStep, stateTitles, nodeHeadings, h1, h2, h3]

/-- Folding the inner step appends the heading titles of the nodes, in order. -/
theorem segMany_titles (nodes : List Node) (st : SegState) :
    stateTitles (nodes.foldl segStep st)
      = stateTitles st ++ (nodes.map nodeHeadings).flatten := by
  induction nodes generalizing st with
  | nil => simp
  | cons n rest ih => simp [List.foldl_cons, ih, segStep_titles, List.append_assoc]

/-- One outer step appends exactly the heading titles of the processed element. -/
theorem segTop_titles (st : SegState) (element : Node) :
    stateTitles (segTop st element) = stateTitles st ++ topHeadings element := by
  by_cases h1 : element.name = some "a"
  · simp [segTop, topHeadings, h1]
  · by_cases h2 : element.name = some "div" <;>
      simp [segTop, topHeadings, h1, h2, segMany_titles]

/-- Folding the outer step appends all heading titles of the document, in order. -/
theorem segAll_titles (children : List Node) (st : SegState) :
    stateTitles (children.foldl segTop st)
      = stateTitles st ++ articleHeadings children := by
  induction children generalizing st with
  | nil => simp [articleHeadings]
  | cons el rest ih =>
    simp [articleHeadings, List.foldl_cons, ih, segTop_titles, List.append_assoc]

/-- C5: the sections emitted by the segmenter correspond one to one, in order, to the
heading nodes of the traversal (their titles are exactly the headings' stripped texts
in document order); a document with no headings yields no sections even if it has
paragraphs; and a paragraph processed while no section is in progress leaves the
state — hence every emitted section — untouched. -/
theorem sections_follow_headings :
    (∀ children, ((segmentArticle children).sections).map StorySection.title
        = articleHeadings children)
      ∧ (∀ children, articleHeadings children = [] → (segmentArticle children).sections = [])
      ∧ ∀ st content, st.currentSection = none → content.name = some "p" →
          segStep st content = st := by
  have key : ∀ children, ((segmentArticle children).sections).map StorySection.title
      = articleHeadings children := by
    intro children
    have h := segAll_titles children initSegState
    simpa [segmentArticle, stateTitles, initSegState] using h
  refine ⟨key, fun children h => ?_, fun st content hcs hp => ?_⟩
  · have h2 := key children
    rw [h] at h2
    simpa using h2
  · have h1 : ¬ content.name = some "h1" := by rw [hp]; simp
    simp [segStep, h1, hp, hcs]

/-- Example markup with a paragraph but no heading at all. -/
def exNoHeading : List Node := [Node.tag "div" [] [Node.tag "p" [] [Node.text "Hello"]]]

/-- Witness for C5: the worked example's titles match its headings, the
heading-free document yields no sections, and a paragraph with no section in
progress is dropped. -/
theorem sections_follow_headings_witness :
    ((segmentArticle exArticleChildren).sections).map StorySection.title
        = articleHeadings exArticleChildren
      ∧ (segmentArticle exNoHeading).sections = []
      ∧ segStep initSegState (Node.tag "p" [] [Node.text "dropped"]) = initSegState :=
  ⟨sections_follow_headings.1 exArticleChildren,
   sections_follow_headings.2.1 exNoHeading rfl,
   sections_follow_headings.2.2 initSegState (Node.tag "p" [] [Node.text "dropped"]) rfl rfl⟩

/-- Effect of one inner step on the recorded main image: the node's figure image (if
any) is adopted exactly when no truthy main image is recorded yet. -/
theorem segStep_mainImage (st : SegState) (content : Node) :
    (segStep st content).mainImage =
      match nodeFigureImages content with
      | [] => st.mainImage
      | u :: _ => if truthyOptStr st.mainImage then st.mainImage else some u := by
  by_cases h1 : content.name = some "h1"
  · have h3 : ¬ content.name = some "figure" := by rw [h1]; simp
    simp [segStep, nodeFigureImages, h1, h3]
  · by_cases h2 : content.name = some "p"
    · have h3 : ¬ content.name = some "figure" := by rw [h2]; simp
      cases hcs : st.currentSection <;> simp [segStep, nodeFigureImages, h1, h2, h3, hcs]
    · by_cases h3 : content.name = some "figure"
      · cases himg : findTag "img" content.children with
        | none => simp [segStep, nodeFigureImages, h1, h2, h3, himg]
        | some img =>
          cases hsrc : img.attrs.lookup "src" with
          | none => simp [segStep, nodeFigureImages, h1, h2, h3, himg, hsrc]
          | some src =>
            by_cases ht : truthyStr src
            · by_cases hm : truthyOptStr st.mainImage <;> cases hcs : st.currentSection <;>
                simp [segStep, nodeFigureImages, h1, h2, h3, himg, hsrc, ht, hm, hcs]
            · simp [segStep, nodeFigureImages, h1, h2, h3, himg, hsrc, ht]
      · simp [segStep, nodeFigureImages, h1, h2, h3]

/-- Every image URL the traversal records is a nonempty string. -/
theorem nodeFigureImages_truthy (content : Node) (u : String)
    (h : u ∈ nodeFigureImages content) : truthyStr u = true := by
  by_cases h3 : content.name = some "figure"
  · unfold nodeFigureImages at h
    rw [if_pos h3] at h
    cases himg : findTag "img" content.children with
    | none => simp [himg] at h
    | some img =>
      simp only [himg] at h
      cases hsrc : img.attrs.lookup "src" with
      | none => simp [hsrc] at h
      | some src =>
        simp only [hsrc] at h
        by_cases ht : truthyStr src
        · rw [if_pos ht] at h
          simp at h
          rw [h]
          exact ht
        · rw [if_neg ht] at h; simp at h
  · unfold nodeFigureImages at h
    rw [if_neg h3] at h
    simp at h

/-- Every image URL a whole outer element contributes is a nonempty string. -/
theorem topFigureImages_truthy (element : Node) (u : String)
    (h : u ∈ topFigureImages element) : truthyStr u = true := by
  by_cases h1 : element.name = some "a"
  · simp [topFigureImages, h1] at h
  · by_cases h2 : element.name = some "div"
    · unfold topFigureImages at h
      rw [if_neg h1, if_pos h2] at h
      simp only [List.mem_flatten, List.mem_map] at h
      obtain ⟨l, ⟨n, hn, rfl⟩, hu⟩ := h
      exact nodeFigureImages_truthy n u hu
    · simp [topFigureImages, h1, h2] at h

/-- A truthy recorded main image is never overwritten by the inner loop. -/
theorem segMany_mainImage_truthy (nodes : List Node) (st : SegState)
    (h : truthyOptStr st.mainImage = true) :
    (nodes.foldl segStep st).mainImage = st.mainImage := by
  induction nodes generalizing st with
  | nil => rfl
  | cons n rest ih =>
    have heq : (segStep st n).mainImage = st.mainImage := by
      rw [segStep_mainImage]
      cases nodeFigureImages n <;> simp [h]
    have h2 : truthyOptStr (segStep st n).mainImage = true := by rw [heq]; exact h
    rw [List.foldl_cons, ih _ h2, heq]

/-- With no main image recorded, the inner loop records the first figure image of the
processed nodes (or none). -/
theorem segMany_mainImage_none (nodes : List Node) (st : SegState)
    (h : st.mainImage = none) :
    (nodes.foldl segStep st).mainImage = ((nodes.map nodeFigureImages).flatten).head? := by
  induction nodes generalizing st with
  | nil => simpa using h
  | cons n rest ih =>
    rw [List.foldl_cons, List.map_cons, List.flatten_cons]
    cases hn : nodeFigureImages n with
    | nil =>
      have heq : (segStep st n).mainImage = none := by rw [segStep_mainImage, hn]; exact h
      simpa using ih _ heq
    | cons u us =>
      have hu : truthyStr u = true := nodeFigureImages_truthy n u (by rw [hn]; simp)
      have heq : (segStep st n).mainImage = some u := by
        rw [segStep_mainImage, hn, h]
        simp [truthyOptStr]
      have htr : truthyOptStr (segStep st n).mainImage = true := by
        rw [heq]
        simpa [truthyOptStr] using hu
      rw [segMany_mainImage_truthy rest _ htr, heq]
      simp

/-- A truthy recorded main image is never overwritten by the outer loop. -/
theorem segTop_mainImage_truthy (st : SegState) (element : Node)
    (h : truthyOptStr st.mainImage = true) :
    (segTop st element).mainImage = st.mainImage := by
  by_cases h1 : element.name = some "a"
  · simp [segTop, h1]
  · by_cases h2 : element.name = some "div" <;>
      simp [segTop, h1, h2, segMany_mainImage_truthy _ st h]

/-- With no main image recorded, one outer step records the element's first figure
image (or none). -/
theorem segTop_mainImage_none (st : SegState) (element : Node)
    (h : st.mainImage = none) :
    (segTop st element).mainImage = (topFigureImages element).head? := by
  by_cases h1 : element.name = some "a"
  · simp [segTop, topFigureImages, h1, h]
  · by_cases h2 : element.name = some "div"
    · simp [segTop, topFigureImages, h1, h2, segMany_mainImage_none _ st h]
    · simp [segTop, topFigureImages, h1, h2, h]

/-- A truthy recorded main image survives the whole document walk. -/
theorem segAll_mainImage_truthy (children : List Node) (st : SegState)
    (h : truthyOptStr st.mainImage = true) :
    (children.foldl segTop st).mainImage = st.mainImage := by
  induction children generalizing st with
  | nil => rfl
  | cons el rest ih =>
    have heq : (segTop st el).mainImage = st.mainImage := segTop_mainImage_truthy st el h
    have h2 : truthyOptStr (segTop st el).mainImage = true := by rw [heq]; exact h
    rw [List.foldl_cons, ih _ h2, heq]

/-- Starting with no main image, the document walk records exactly the first figure
image of the document, in traversal order. -/
theorem segAll_mainImage_none (children : List Node) (st : SegState)
    (h : st.mainImage = none) :
    (children.foldl segTop st).mainImage = (articleFigureImages children).head? := by
  induction children generalizing st with
  | nil => simpa [articleFigureImages] using h
  | cons el rest ih =>
    rw [List.foldl_cons]
    unfold articleFigureImages
    rw [List.map_cons, List.flatten_cons]
    cases hn : topFigureImages el with
    | nil =>
      have heq : (segTop st el).mainImage = none := by
        rw [segTop_mainImage_none st el h, hn]
        rfl
      simpa [articleFigureImages] using ih _ heq
    | cons u us =>
      have hu : truthyStr u = true := topFigureImages_truthy el u (by rw [hn]; simp)
      have heq : (segTop st el).mainImage = some u := by
        rw [segTop_mainImage_none st el h, hn]
        rfl
      have htr : truthyOptStr (segTop st el).mainImage = true := by
        rw [heq]
        simpa [truthyOptStr] using hu
      rw [segAll_mainImage_truthy rest _ htr, heq]
      simp

/-- C4: the recorded main image is the first image of the document in traversal
order — later images never overwrite it — and a figure processed while no section is
in progress contributes nothing to the section list (only, possibly, to the
main-image slot). -/
theorem main_image_first_figure :
    (∀ children, (segmentArticle children).mainImage
        = (articleFigureImages children).head?)
      ∧ ∀ st content, st.currentSection = none → content.name = some "figure" →
          (segStep st content).sections = st.sections
            ∧ (segStep st content).currentSection = none := by
  constructor
  · intro children
    have h := segAll_mainImage_none children initSegState rfl
    simpa [segmentArticle] using h
  · intro st content hcs hf
    have h1 : ¬ content.name = some "h1" := by rw [hf]; simp
    have h2 : ¬ content.name = some "p" := by rw [hf]; simp
    cases himg : findTag "img" content.children with
    | none => simp [segStep, h1, h2, hf, himg, hcs]
    | some img =>
      cases hsrc : img.attrs.lookup "src" with
      | none => simp [segStep, h1, h2, hf, himg, hsrc, hcs]
      | some src =>
        by_cases ht : truthyStr src
        · by_cases hm : truthyOptStr st.mainImage <;>
            simp [segStep, h1, h2, hf, himg, hsrc, ht, hm, hcs]
        · simp [segStep, h1, h2, hf, himg, hsrc, ht, hcs]

/-- Example figure node containing an image. -/
def exFigure : Node := Node.tag "figure" [] [Node.tag "img" [("src", "a.png")] []]

/-- Witness for C4: the worked example's main image is its first figure image, and a
figure processed with no section in progress leaves the section list empty. -/
theorem main_image_first_figure_witness :
    (segmentArticle exArticleChildren).mainImage
        = (articleFigureImages exArticleChildren).head?
      ∧ (segStep initSegState exFigure).sections = initSegState.sections
        ∧ (segStep initSegState exFigure).currentSection = none :=
  ⟨main_image_first_figure.1 exArticleChildren,
   main_image_first_figure.2 initSegState exFigure rfl rfl⟩

/-- Joining no strings gives the empty string. -/
theorem string_join_nil : String.join [] = "" := rfl

/-- Joining strings distributes over appending one final string. -/
theorem string_join_concat (l : List String) (s : String) :
    String.join (l ++ [s]) = String.join l ++ s := by
  simp [String.join, List.foldl_append]

/-- View of a reference state as a concrete segmentation state. -/
def stateOfSpec (st : SpecState) : SegState :=
  ⟨st.sections.map sectionOfSpec, st.currentSection.map sectionOfSpec, st.mainImage⟩

/-- The concrete inner step simulates the reference inner step. -/
theorem segStep_spec (st : SpecState) (content : Node) :
    segStep (stateOfSpec st) content = stateOfSpec (specStep st content) := by
  by_cases h1 : content.name = some "h1"
  · cases hcs : st.currentSection <;>
      simp [segStep, specStep, stateOfSpec, h1, hcs, sectionOfSpec, string_join_nil]
  · by_cases h2 : content.name = some "p"
    · cases hcs : st.currentSection with
      | none => simp [segStep, specStep, stateOfSpec, h1, h2, hcs]
      | some cs =>
        simp [segStep, specStep, stateOfSpec, h1, h2, hcs, sectionOfSpec,
          string_join_concat, String.append_assoc]
    · by_cases h3 : content.name = some "figure"
      · cases himg : findTag "img" content.children with
        | none => simp [segStep, specStep, stateOfSpec, h1, h2, h3, himg]
        | some img =>
          cases hsrc : img.attrs.lookup "src" with
          | none => simp [segStep, specStep, stateOfSpec, h1, h2, h3, himg, hsrc]
          | some src =>
            by_cases ht : truthyStr src
            · by_cases hm : truthyOptStr st.mainImage <;> cases hcs : st.currentSection <;>
                simp [segStep, specStep, stateOfSpec, h1, h2, h3, himg, hsrc, ht, hm,
                  hcs, sectionOfSpec]
            · simp [segStep, specStep, stateOfSpec, h1, h2, h3, himg, hsrc, ht]
      · simp [segStep, specStep, stateOfSpec, h1, h2, h3]

/-- The concrete inner loop simulates the reference inner loop. -/
theorem segMany_spec (nodes : List Node) (st : SpecState) :
    nodes.foldl segStep (stateOfSpec st) = stateOfSpec (nodes.foldl specStep st) := by
  induction nodes generalizing st with
  | nil => rfl
  | cons n rest ih => rw [List.foldl_cons, List.foldl_cons, segStep_spec, ih]

/-- The concrete outer step simulates the reference outer step. -/
theorem segTop_spec (st : SpecState) (element : Node) :
    segTop (stateOfSpec st) element = stateOfSpec (specTop st element) := by
  by_cases h1 : element.name = some "a"
  · simp [segTop, specTop, h1]
  · by_cases h2 : element.name = some "div" <;>
      simp [segTop, specTop, h1, h2, segMany_spec]

/-- The concrete document walk simulates the reference document walk. -/
theorem segAll_spec (children : List Node) (st : SpecState) :
    children.foldl segTop (stateOfSpec st) = stateOfSpec (children.foldl specTop st) := by
  induction children generalizing st with
  | nil => rfl
  | cons el rest ih => rw [List.foldl_cons, List.foldl_cons, segTop_spec, ih]

/-- The emitted sections are the reference sections with each body collapsed to the
newline-terminated concatenation of its paragraph texts. -/
theorem segmentArticle_spec (children : List Node) :
    (segmentArticle children).sections = (specSections children).map sectionOfSpec := by
  have h0 : stateOfSpec ⟨[], none, none⟩ = initSegState := rfl
  have h := segAll_spec children ⟨[], none, none⟩
  rw [h0] at h
  unfold segmentArticle specSections
  rw [h]
  cases hcs : (children.foldl specTop ⟨[], none, none⟩).currentSection <;>
    simp [stateOfSpec, hcs]

/-- C10: every emitted section's body is exactly the concatenation of the stripped
texts of the section's paragraphs, each followed by one newline — so it is either
empty or ends with a newline character, and paragraphs within a section are always
newline-separated. -/
theorem section_content_newline_terminated :
    (∀ children, (segmentArticle children).sections
        = (specSections children).map sectionOfSpec)
      ∧ ∀ children sec, sec ∈ (segmentArticle children).sections →
          (∃ ps : List String, sec.content = String.join (ps.map (fun t => t ++ "\n")))
            ∧ (sec.content = "" ∨ ∃ t, sec.content = t ++ "\n") := by
  refine ⟨segmentArticle_spec, fun children sec hmem => ?_⟩
  rw [segmentArticle_spec] at hmem
  simp only [List.mem_map] at hmem
  obtain ⟨s, hs, rfl⟩ := hmem
  refine ⟨⟨s.paragraphs, rfl⟩, ?_⟩
  rcases List.eq_nil_or_concat s.paragraphs with hnil | ⟨qs, t, hq⟩
  · left
    simp [sectionOfSpec, hnil, string_join_nil]
  · right
    refine ⟨String.join (qs.map (fun t => t ++ "\n")) ++ t, ?_⟩
    simp [sectionOfSpec, hq, string_join_concat, String.append_assoc]

/-- Witness for C10 at the worked example's first section. -/
theorem section_content_newline_terminated_witness :
    (∃ ps : List String, (⟨"Intro", "Hello\n", ["a.png"]⟩ : StorySection).content
        = String.join (ps.map (fun t => t ++ "\n")))
      ∧ ((⟨"Intro", "Hello\n", ["a.png"]⟩ : StorySection).content = ""
          ∨ ∃ t, (⟨"Intro", "Hello\n", ["a.png"]⟩ : StorySection).content = t ++ "\n") :=
  section_content_newline_terminated.2 exArticleChildren ⟨"Intro", "Hello\n", ["a.png"]⟩
    (by
      have h : (segmentArticle exArticleChildren).sections
          = [⟨"Intro", "Hello\n", ["a.png"]⟩, ⟨"Next", "World\n", []⟩] := by
        simp [segmentArticle, initSegState, segTop, segStep, exArticleChildren,
          findTag, getTextStrip, getTexts, getTextsList, pyStrip, truthyStr,
          truthyOptStr, Node.name, Node.attrs, Node.children]
        decide
      rw [h]
      simp)

/-- Total number of record summaries carried by the successful responses of a trace. -/
def totalItems (pages : List (Except FetchError ApiResponse)) : Nat :=
  (pages.map (fun p =>
    match p with
    | Except.ok r => r.items.length
    | Except.error _ => 0)).sum

/-- A predicate true on every element counts every element. -/
theorem countP_eq_length_of_all {α : Type} (p : α → Bool) (l : List α)
    (h : ∀ a ∈ l, p a = true) : l.countP p = l.length := by
  induction l with
  | nil => rfl
  | cons a r ih =>
    rw [List.countP_cons, ih (fun b hb => h b (by simp [hb]))]
    simp [h a (by simp)]

/-- Any successful result of the pagination loop started below the budget stays
within the budget. -/
theorem fetchLoop_length_le (pageOracle : String → Except FetchError (List Node))
    (N : Int) (pages : List (Except FetchError ApiResponse)) (acc : List MergedStory)
    (l : List MergedStory) (h0 : 0 ≤ N) (hacc : acc.length ≤ N.toNat)
    (h : fetchLoop pageOracle N pages acc = Except.ok l) :
    l.length ≤ N.toNat := by
  induction pages generalizing acc with
  | nil =>
    simp only [fetchLoop, Except.ok.injEq] at h
    rw [← h]
    exact hacc
  | cons resp rest ih =>
    cases resp with
    | error e => simp [fetchLoop] at h
    | ok r =>
      simp only [fetchLoop] at h
      split at h
      · simp only [Except.ok.injEq] at h
        rw [← h]
        unfold pySliceTo
        rw [if_pos h0]
        simp [List.length_take]
      · rename_i hc
        split at h
        · simp only [Except.ok.injEq] at h
          rw [← h]
          push_neg at hc
          have hlt := hc (by omega)
          rw [List.length_append] at hlt ⊢
          omega
        · rename_i c hcur
          refine ih (acc ++ seqBatch pageOracle r.items) ?_ h
          push_neg at hc
          have hlt := hc (by omega)
          omega

/-- If every listing response succeeds with a next cursor and every item enriches
successfully, and the trace supplies at least the budget, the loop returns exactly
the budget. -/
theorem fetchLoop_length_exact (pageOracle : String → Except FetchError (List Node))
    (N : Int) (pages : List (Except FetchError ApiResponse)) (acc : List MergedStory)
    (h0 : 0 ≤ N)
    (hgood : ∀ p ∈ pages, ∃ r, p = Except.ok r ∧ r.nextCursor.isSome = true
        ∧ ∀ s ∈ r.items, (process_story pageOracle s).isOk = true)
    (hacc : acc.length ≤ N.toNat) (htot : N.toNat ≤ acc.length + totalItems pages) :
    ∃ m, fetchLoop pageOracle N pages acc = Except.ok m ∧ m.length = N.toNat := by
  induction pages generalizing acc with
  | nil =>
    refine ⟨acc, rfl, ?_⟩
    simp only [totalItems, List.map_nil, List.sum_nil, Nat.add_zero] at htot
    omega
  | cons resp rest ih =>
    obtain ⟨r, rfl, hcur, hitems⟩ := hgood resp (by simp)
    have hbatch : (seqBatch pageOracle r.items).length = r.items.length := by
      rw [seqBatch_length]
      exact countP_eq_length_of_all _ _ hitems
    have htotc : totalItems (Except.ok r :: rest) = r.items.length + totalItems rest := by
      simp [totalItems]
    simp only [fetchLoop]
    split
    · rename_i hc
      refine ⟨_, rfl, ?_⟩
      unfold pySliceTo
      rw [if_pos h0]
      have hge := hc.2
      rw [List.length_append] at hge
      simp only [List.length_take, List.length_append]
      omega
    · rename_i hc
      push_neg at hc
      have hlt := hc (by omega)
      rw [List.length_append, hbatch] at hlt
      cases hcurv : r.nextCursor with
      | none => rw [hcurv] at hcur; simp at hcur
      | some c =>
        refine ih (acc ++ seqBatch pageOracle r.items) (fun p hp => hgood p (by simp [hp]))
          ?_ ?_
        · rw [List.length_append, hbatch]
          omega
        · rw [List.length_append, hbatch]
          rw [htotc] at htot
          omega

/-- C2: for every finite budget N ≥ 0, the driver returns at most N merged records;
with listing pages not exhausted before the budget (every response successful with a
next cursor) and no per-item failures, it returns exactly N records; and when the
first batch alone reaches the budget the result is that batch truncated to exactly N,
identical for every continuation of the trace (no further listing page requested). -/
theorem budget_truncation (pageOracle : String → Except FetchError (List Node))
    (pages : List (Except FetchError ApiResponse)) (N : Int) (h0 : 0 ≤ N) :
    (∀ l, fetch_full_stories pageOracle pages N = Except.ok l → l.length ≤ N.toNat)
      ∧ ((∀ p ∈ pages, ∃ r, p = Except.ok r ∧ r.nextCursor.isSome = true
            ∧ ∀ s ∈ r.items, (process_story pageOracle s).isOk = true) →
          N.toNat ≤ totalItems pages →
          ∃ m, fetch_full_stories pageOracle pages N = Except.ok m
            ∧ m.length = N.toNat)
      ∧ ∀ r rest, N ≤ ((seqBatch pageOracle r.items).length : Int) →
          fetch_full_stories pageOracle (Except.ok r :: rest) N
            = Except.ok ((seqBatch pageOracle r.items).take N.toNat) := by
  refine ⟨fun l h => fetchLoop_length_le pageOracle N pages [] l h0 (by simp) h,
    fun hgood htot =>
      fetchLoop_length_exact pageOracle N pages [] h0 hgood (by simp) (by simpa using htot),
    fun r rest hge => ?_⟩
  simp only [fetch_full_stories, fetchLoop, List.nil_append]
  rw [if_pos ⟨by omega, hge⟩]
  unfold pySliceTo
  rw [if_pos h0]

/-- Example pagination cursor value. -/
def exCursor : Cursor := ⟨0, "2024-01-01"⟩

/-- Example first listing page: two items and a next cursor. -/
def exPage1 : ApiResponse := ⟨[mkItem "s1", mkItem "s2"], some exCursor⟩

/-- Example second listing page: one item and a next cursor. -/
def exPage2 : ApiResponse := ⟨[mkItem "s3"], some exCursor⟩

/-- Example listing trace supplying three items over two pages. -/
def exPages : List (Except FetchError ApiResponse) :=
  [Except.ok exPage1, Except.ok exPage2]

/-- Witness for C2 with budget 2 against the three-item example trace. -/
theorem budget_truncation_witness :
    (∃ m, fetch_full_stories exOracle exPages 2 = Except.ok m
        ∧ m.length = (2 : Int).toNat)
      ∧ fetch_full_stories exOracle (Except.ok exPage1 :: [Except.ok exPage2]) 2
          = Except.ok ((seqBatch exOracle exPage1.items).take (2 : Int).toNat) := by
  obtain ⟨hle, hexact, htrunc⟩ := budget_truncation exOracle exPages 2 (by decide)
  refine ⟨hexact ?_ (by decide), htrunc exPage1 [Except.ok exPage2] ?_⟩
  · intro p hp
    simp only [exPages, List.mem_cons, List.not_mem_nil, or_false] at hp
    rcases hp with rfl | rfl
    · refine ⟨exPage1, rfl, rfl, ?_⟩
      intro s hs
      simp only [exPage1, List.mem_cons, List.not_mem_nil, or_false] at hs
      rcases hs with rfl | rfl <;>
        simp [mkItem, process_story, parse_story, exOracle, exSoup, exArticleChildren,
          findTag, except_isOk_ok]
    · refine ⟨exPage2, rfl, rfl, ?_⟩
      intro s hs
      simp only [exPage2, List.mem_cons, List.not_mem_nil, or_false] at hs
      rcases hs with rfl
      simp [mkItem, process_story, parse_story, exOracle, exSoup, exArticleChildren,
        findTag, except_isOk_ok]
  · have hb : (seqBatch exOracle exPage1.items).length = 2 := by
      rw [seqBatch_length]
      simp [exPage1, List.countP_cons, mkItem, process_story, parse_story, exOracle,
        exSoup, exArticleChildren, findTag, except_isOk_ok]
    rw [hb]
    decide
